import Mathlib

/-!
Verification of the contextual/heritage lineage engine of the EV-MAX catalog
API (src/app/services/contextual_service.py, src/app/models/contextual_chain.py,
src/app/config.py).

The engine is embedded shallowly: the Node Store (`contextual_chain_nodes`
table) and the Lineage Index (`heritage_lineage` table) become lists of
records, a register call becomes a pure function from a committed database
state to either an error or the next committed state, and the read query
`get_heritage_lineage` becomes a pure function of the state.  The session
semantics of the source are reflected as follows: the engine runs with
`autoflush=False` sessions (src/app/database.py), so the queries issued inside
`_create_heritage_entries` see only the state committed before the call; all
`ValueError` raises in `register_node` happen before `commit()`, and the
unique index `idx_ancestor_descendant` on `(ancestor_node_id,
descendant_node_id)` makes `commit()` fail with an `IntegrityError` when a
pending lineage row repeats a pair, in which case the transaction is rolled
back and nothing is persisted.  Timestamp columns (`created_at`,
`updated_at`) and the surrogate integer primary keys are omitted: no engine
logic reads them.
-/

namespace EvMaxCatalog

/-- Input data for a registration call (`ContextualChainNodeData` in
src/app/services/contextual_service.py); the `timestamp` field is omitted
because no engine logic reads it, and `metadata` is an opaque key-value
list the engine never inspects. -/
structure ContextualChainNodeData where
  node_id : String
  node_type : String
  parent_nodes : List String
  metadata : List (String × String)
  deriving DecidableEq

/-- A persisted row of the `contextual_chain_nodes` table
(`ContextualChainNode` in src/app/models/contextual_chain.py). -/
structure ContextualChainNode where
  node_id : String
  node_type : String
  parent_nodes : List String
  node_metadata : List (String × String)
  lathering_depth : Nat
  deriving DecidableEq

/-- A persisted row of the `heritage_lineage` table (`HeritageLineage` in
src/app/models/contextual_chain.py). -/
structure HeritageLineage where
  ancestor_node_id : String
  descendant_node_id : String
  depth_distance : Nat
  deriving DecidableEq

/-- Modelled from the spec: the configuration options
`ENABLE_CIRCULAR_DEPENDENCY_CHECK` and `MAX_CHAIN_DEPTH` that
`ContextualLatheringEngine.register_node` reads from the global `settings`
object.  The `Settings` class in src/app/config.py declares neither field
(see `settingsDeclaredFields` below), so they are modelled here as the
engine consumes them: a boolean toggle for the cycle check and an integer
maximum chain depth. -/
structure EngineSettings where
  ENABLE_CIRCULAR_DEPENDENCY_CHECK : Bool
  MAX_CHAIN_DEPTH : Nat
  deriving DecidableEq

/-- The committed database state: the Node Store and the Lineage Index. -/
structure DBState where
  nodes : List ContextualChainNode
  edges : List HeritageLineage
  deriving DecidableEq

/-- The empty database (no nodes, no lineage rows). -/
def dbEmpty : DBState := ⟨[], []⟩

/-- Distinguishable failures of the engine, by exception type and message:
`duplicateNode` is the ValueError "already exists", `circularDependency` the
ValueError "would create circular dependency", `depthLimitExceeded` the
ValueError "exceeds maximum", `nodeNotFound` the ValueError "not found"
raised by the read queries, and `integrityViolation` the storage-layer
`IntegrityError` raised at commit by the unique index on
`(ancestor_node_id, descendant_node_id)`. -/
inductive RegistrationError where
  | duplicateNode
  | circularDependency
  | depthLimitExceeded
  | integrityViolation
  | nodeNotFound
  deriving DecidableEq

/-- The query `db.query(ContextualChainNode).filter(node_id == nid).first()`:
the first stored node with the given id, if any. -/
def lookupNode (st : DBState) (nid : String) : Option ContextualChainNode :=
  st.nodes.find? (fun n => n.node_id == nid)

/-- Whether a node id is present in the Node Store. -/
def isRegistered (st : DBState) (nid : String) : Bool :=
  (lookupNode st nid).isSome

/-- `ContextualLatheringEngine._would_create_cycle`: true when the node id
appears among its own declared parents, or some declared parent is already
recorded as a descendant of the node in the Lineage Index. -/
def wouldCreateCycle (st : DBState) (node_id : String) (parent_nodes : List String) : Bool :=
  parent_nodes.contains node_id ||
    parent_nodes.any (fun parent_id =>
      st.edges.any (fun e =>
        e.ancestor_node_id == node_id && e.descendant_node_id == parent_id))

/-- `ContextualLatheringEngine._calculate_depth`: 0 for an empty parent
list; otherwise the depths of the stored nodes whose ids appear in the
parent list are fetched, and the result is their maximum plus one — or 1
when no declared parent is present in the Node Store (the source returns 1
when the query comes back empty; it performs no existence check). -/
def calculateDepth (st : DBState) (parent_nodes : List String) : Nat :=
  if parent_nodes.isEmpty then 0
  else
    let parent_depths :=
      (st.nodes.filter (fun n => parent_nodes.contains n.node_id)).map
        (fun n => n.lathering_depth)
    if parent_depths.isEmpty then 1
    else parent_depths.foldl Nat.max 0 + 1

/-- `ContextualLatheringEngine._create_heritage_entries`: the pending
lineage rows added to the session for a new node, in insertion order —
first one direct row `(p, node_id, 1)` per declared parent, then, per
declared parent `p`, one row `(a, node_id, d + 1)` per existing row
`(a, p, d)` of the Lineage Index.  The source's `node_depth` parameter is
unused by its body and is omitted here. -/
def createHeritageEntries (st : DBState) (node_id : String) (parent_nodes : List String) :
    List HeritageLineage :=
  parent_nodes.map (fun parent_id => ⟨parent_id, node_id, 1⟩) ++
    parent_nodes.flatMap (fun parent_id =>
      (st.edges.filter (fun e => e.descendant_node_id == parent_id)).map
        (fun a => ⟨a.ancestor_node_id, node_id, a.depth_distance + 1⟩))

/-- Whether two lineage rows collide on the unique index
`idx_ancestor_descendant` of src/app/models/contextual_chain.py, i.e. agree
on both the ancestor and the descendant id. -/
def sameEdgePair (e1 e2 : HeritageLineage) : Bool :=
  e1.ancestor_node_id == e2.ancestor_node_id &&
    e1.descendant_node_id == e2.descendant_node_id

/-- Whether a list of lineage rows contains two rows that collide on the
unique `(ancestor_node_id, descendant_node_id)` index. -/
def hasDupPair : List HeritageLineage → Bool
  | [] => false
  | e :: rest => rest.any (sameEdgePair e) || hasDupPair rest

/-- Whether committing the pending lineage rows violates the unique
`(ancestor_node_id, descendant_node_id)` index: two pending rows collide
with each other, or a pending row collides with an already committed row. -/
def commitViolation (existing pending : List HeritageLineage) : Bool :=
  hasDupPair pending || pending.any (fun e => existing.any (sameEdgePair e))

/-- `ContextualLatheringEngine.register_node`, from committed state to
either an error or the next committed state: duplicate-id check, optional
cycle check, depth computation, depth-limit check, then the node row plus
the pending lineage rows commit together — or the commit fails on the
unique lineage index and nothing is persisted. -/
def registerNode (cfg : EngineSettings) (st : DBState) (node : ContextualChainNodeData) :
    Except RegistrationError DBState :=
  match lookupNode st node.node_id with
  | some _ => .error .duplicateNode
  | none =>
    if cfg.ENABLE_CIRCULAR_DEPENDENCY_CHECK &&
        wouldCreateCycle st node.node_id node.parent_nodes then
      .error .circularDependency
    else if calculateDepth st node.parent_nodes > cfg.MAX_CHAIN_DEPTH then
      .error .depthLimitExceeded
    else if commitViolation st.edges
        (createHeritageEntries st node.node_id node.parent_nodes) then
      .error .integrityViolation
    else
      .ok ⟨st.nodes ++ [⟨node.node_id, node.node_type, node.parent_nodes, node.metadata,
            calculateDepth st node.parent_nodes⟩],
          st.edges ++ createHeritageEntries st node.node_id node.parent_nodes⟩

/-- The committed state after a register call: the new state on success,
the unchanged previous state when the call raises (every raise happens
before `commit()`, or aborts the commit itself, so the transaction rolls
back). -/
def stepRegister (cfg : EngineSettings) (st : DBState) (node : ContextualChainNodeData) :
    DBState :=
  match registerNode cfg st node with
  | .ok st' => st'
  | .error _ => st

/-- The committed state reached from the empty database by a sequence of
register calls. -/
def execChain (cfg : EngineSettings) (nodes : List ContextualChainNodeData) : DBState :=
  nodes.foldl (stepRegister cfg) dbEmpty

/-- Comparison used by the `ORDER BY depth_distance` clause of
`get_heritage_lineage`. -/
def byDistance (e1 e2 : HeritageLineage) : Bool :=
  e1.depth_distance ≤ e2.depth_distance

/-- `ContextualLatheringEngine.get_heritage_lineage`: fails when the node
id is absent from the Node Store; otherwise returns the ancestor ids of the
node's Lineage Index rows ordered by ascending `depth_distance` (a stable
sort of the rows in index order, matching the deterministic tie order of
the SQL query for a fixed insertion history). -/
def getHeritageLineage (st : DBState) (node_id : String) :
    Except RegistrationError (List String) :=
  match lookupNode st node_id with
  | none => .error .nodeNotFound
  | some _ =>
    .ok (((st.edges.filter (fun e => e.descendant_node_id == node_id)).mergeSort
        byDistance).map (fun e => e.ancestor_node_id))

/-- Field names declared by the `Settings` class in src/app/config.py
(lines 8–61), in source order. -/
def settingsDeclaredFields : List String :=
  ["APP_NAME", "APP_VERSION", "DEBUG", "ENVIRONMENT",
   "API_HOST", "API_PORT", "API_PREFIX",
   "DATABASE_URL", "DB_POOL_SIZE", "DB_MAX_OVERFLOW", "DB_POOL_TIMEOUT",
   "CORS_ORIGINS", "CORS_CREDENTIALS", "CORS_METHODS", "CORS_HEADERS",
   "SECRET_KEY", "ALGORITHM", "ACCESS_TOKEN_EXPIRE_MINUTES",
   "LOG_LEVEL", "LOG_FORMAT",
   "DEFAULT_COST_CODE_COUNT", "ENABLE_BID_CALCULATION", "ENABLE_ROI_ANALYSIS",
   "RATE_LIMIT_ENABLED", "RATE_LIMIT_PER_MINUTE",
   "DEFAULT_PAGE_SIZE", "MAX_PAGE_SIZE"]

/-- Settings attribute names read by `ContextualLatheringEngine.register_node`
(src/app/services/contextual_service.py lines 62 and 72). -/
def registerNodeSettingsReads : List String :=
  ["ENABLE_CIRCULAR_DEPENDENCY_CHECK", "MAX_CHAIN_DEPTH"]

/-- Maximum of the stored depths of the nodes of the store whose ids appear
in the given parent list (0 when none is present) — the quantity the spec's
depth relation `depth == 1 + max(depth(p) for p in parent_nodes)` refers
to, read over the parents present in the Node Store. -/
def parentMaxDepth (st : DBState) (parent_nodes : List String) : Nat :=
  ((st.nodes.filter (fun n => parent_nodes.contains n.node_id)).map
    (fun n => n.lathering_depth)).foldl Nat.max 0

/-- Statement of claim C2's depth relation over a database state: every
stored node has depth 0 when its parent list is empty, and otherwise depth
one plus the maximum stored depth of its declared parents. -/
def depthRelationHolds (st : DBState) : Bool :=
  st.nodes.all (fun n =>
    if n.parent_nodes.isEmpty then n.lathering_depth == 0
    else n.lathering_depth == 1 + parentMaxDepth st n.parent_nodes)

/-- Statement of claim C7's dominance invariant over a database state:
every stored node's depth is strictly greater than the stored depth of
each declared parent that is present in the Node Store. -/
def depthDominanceHolds (st : DBState) : Bool :=
  st.nodes.all (fun n => n.parent_nodes.all (fun p =>
    match lookupNode st p with
    | some pn => decide (pn.lathering_depth < n.lathering_depth)
    | none => true))

/-- Statement of claim C6's transitivity invariant over a database state:
whenever rows `(a, b, d1)` and `(b, c, d2)` coexist in the Lineage Index,
some row `(a, c, d)` exists. -/
def transitivityHolds (st : DBState) : Bool :=
  st.edges.all (fun e1 => st.edges.all (fun e2 =>
    !(e1.descendant_node_id == e2.ancestor_node_id) ||
      st.edges.any (fun e3 =>
        e3.ancestor_node_id == e1.ancestor_node_id &&
          e3.descendant_node_id == e2.descendant_node_id)))

/-- Whether every declared parent of a registration request is present in
the Node Store at call time. -/
def parentsPresent (st : DBState) (node : ContextualChainNodeData) : Bool :=
  node.parent_nodes.all (fun p => isRegistered st p)

/-- States reachable from the empty database by register calls whose
declared parents are all present in the Node Store at call time (failing
calls leave the state unchanged and are permitted). -/
inductive ReachableAllParents (cfg : EngineSettings) : DBState → Prop where
  | empty : ReachableAllParents cfg dbEmpty
  | step (st : DBState) (node : ContextualChainNodeData) :
      ReachableAllParents cfg st → parentsPresent st node = true →
      ReachableAllParents cfg (stepRegister cfg st node)

/-- Invariants maintained by registration when every register call's
declared parents exist at call time: lineage rows reference registered
nodes on both ends, declared parent lists reference registered nodes, the
Lineage Index is transitively closed, node depths strictly dominate their
parents' depths, and the spec's depth relation holds. -/
structure GoodState (st : DBState) : Prop where
  anc_reg : ∀ e ∈ st.edges, isRegistered st e.ancestor_node_id = true
  desc_reg : ∀ e ∈ st.edges, isRegistered st e.descendant_node_id = true
  parents_reg : ∀ n ∈ st.nodes, ∀ p ∈ n.parent_nodes, isRegistered st p = true
  closure_trans : ∀ e1 ∈ st.edges, ∀ e2 ∈ st.edges,
    e1.descendant_node_id = e2.ancestor_node_id →
    ∃ e3 ∈ st.edges, e3.ancestor_node_id = e1.ancestor_node_id ∧
      e3.descendant_node_id = e2.descendant_node_id
  depth_dom : ∀ n ∈ st.nodes, ∀ p ∈ n.parent_nodes, ∀ pn,
    lookupNode st p = some pn → pn.lathering_depth < n.lathering_depth
  depth_spec : ∀ n ∈ st.nodes,
    (n.parent_nodes = [] → n.lathering_depth = 0) ∧
    (n.parent_nodes ≠ [] → n.lathering_depth = 1 + parentMaxDepth st n.parent_nodes)

/-- Configuration used by the concrete scenarios: cycle check enabled,
maximum chain depth 10. -/
def cfgDefault : EngineSettings := ⟨true, 10⟩

/-- Registration sequence in which node `x` declares the then-missing
parent `g`, and `g` is registered afterwards with depth 2. -/
def seqLateParent : List ContextualChainNodeData :=
  [⟨"r", "cost_code", [], []⟩, ⟨"s", "bid", ["r"], []⟩,
   ⟨"x", "bid", ["g"], []⟩, ⟨"g", "bid", ["s"], []⟩]

/-- Registration sequence in which node `c` declares the then-missing
parent `b`, and `b` is registered afterwards with parent `a`. -/
def seqDanglingChild : List ContextualChainNodeData :=
  [⟨"a", "cost_code", [], []⟩, ⟨"c", "bid", ["b"], []⟩, ⟨"b", "bid", ["a"], []⟩]

/-- Registration sequence in which node `x` declares the then-missing
parent `g`, and `g` is registered afterwards with the same depth as `x`. -/
def seqEqualDepth : List ContextualChainNodeData :=
  [⟨"r", "cost_code", [], []⟩, ⟨"x", "bid", ["g"], []⟩, ⟨"g", "bid", ["r"], []⟩]

/-- Registration sequence building a diamond base: one root `r` with two
children `c1` and `c2`. -/
def seqDiamondBase : List ContextualChainNodeData :=
  [⟨"r", "cost_code", [], []⟩, ⟨"c1", "bid", ["r"], []⟩, ⟨"c2", "bid", ["r"], []⟩]

/-- Registration request for a node `m` whose two parents `c1` and `c2`
share the common ancestor `r`. -/
def nodeM : ContextualChainNodeData := ⟨"m", "roi_analysis", ["c1", "c2"], []⟩

/-- Registration request for the root `a` of the chain scenario. -/
def nodeA : ContextualChainNodeData := ⟨"a", "cost_code", [], []⟩

/-- Registration request for `b`, child of `a`, in the chain scenario. -/
def nodeB : ContextualChainNodeData := ⟨"b", "bid", ["a"], []⟩

/-- Registration sequence building a three-node chain `a ← b ← w`, every
parent present at call time. -/
def seqChain : List ContextualChainNodeData :=
  [⟨"a", "cost_code", [], []⟩, ⟨"b", "bid", ["a"], []⟩, ⟨"w", "roi_analysis", ["b"], []⟩]

/-- Registration request appending `w` (parent `b`) to the two-node chain. -/
def nodeW : ContextualChainNodeData := ⟨"w", "roi_analysis", ["b"], []⟩

/-- The committed state of the two-node chain `a ← b`. -/
def stChain2 : DBState := execChain cfgDefault (seqChain.take 2)

/-- The committed state of the three-node chain `a ← b ← w`. -/
def stChain3 : DBState := execChain cfgDefault seqChain

/-- Inversion of a successful register call: the duplicate check saw no
existing node, the cycle check (when enabled) passed, the computed depth is
within the limit, the commit did not violate the unique lineage index, and
the resulting state appends exactly the new node row and the pending
lineage rows. -/
theorem registerNode_ok_inv {cfg : EngineSettings} {st : DBState}
    {node : ContextualChainNodeData} {st' : DBState}
    (h : registerNode cfg st node = .ok st') :
    lookupNode st node.node_id = none ∧
    (cfg.ENABLE_CIRCULAR_DEPENDENCY_CHECK &&
        wouldCreateCycle st node.node_id node.parent_nodes) = false ∧
    calculateDepth st node.parent_nodes ≤ cfg.MAX_CHAIN_DEPTH ∧
    commitViolation st.edges (createHeritageEntries st node.node_id node.parent_nodes) = false ∧
    st' = ⟨st.nodes ++ [⟨node.node_id, node.node_type, node.parent_nodes, node.metadata,
            calculateDepth st node.parent_nodes⟩],
          st.edges ++ createHeritageEntries st node.node_id node.parent_nodes⟩ := by
  unfold registerNode at h
  split at h
  · cases h
  · rename_i hl
    split at h
    · cases h
    · rename_i hc
      split at h
      · cases h
      · rename_i hd
        split at h
        · cases h
        · rename_i hv
          simp only [Except.ok.injEq] at h
          exact ⟨hl, by simpa using hc, by omega, by simpa using hv, h.symm⟩

/-- A direct lineage row `(p, node_id, 1)` is among the pending rows for
each declared parent `p`. -/
theorem mem_createHeritageEntries_direct {st : DBState} {node_id : String}
    {parent_nodes : List String} {p : String} (hp : p ∈ parent_nodes) :
    (⟨p, node_id, 1⟩ : HeritageLineage) ∈ createHeritageEntries st node_id parent_nodes := by
  unfold createHeritageEntries
  exact List.mem_append_left _ (List.mem_map.mpr ⟨p, hp, rfl⟩)

/-- An inherited lineage row `(a, node_id, d + 1)` is among the pending
rows for each declared parent `p` and each committed row `(a, p, d)`. -/
theorem mem_createHeritageEntries_inherited {st : DBState} {node_id : String}
    {parent_nodes : List String} {p : String} {e : HeritageLineage}
    (hp : p ∈ parent_nodes) (he : e ∈ st.edges) (hd : e.descendant_node_id = p) :
    (⟨e.ancestor_node_id, node_id, e.depth_distance + 1⟩ : HeritageLineage) ∈
      createHeritageEntries st node_id parent_nodes := by
  unfold createHeritageEntries
  refine List.mem_append_right _ (List.mem_flatMap.mpr ⟨p, hp, List.mem_map.mpr ⟨e, ?_, rfl⟩⟩)
  exact List.mem_filter.mpr ⟨he, by simp [hd]⟩

/-- Every pending lineage row of a registration has the new node as its
descendant, and is either a direct row for a declared parent or the
one-step extension of a committed row ending at a declared parent. -/
theorem createHeritageEntries_mem_inv {st : DBState} {node_id : String}
    {parent_nodes : List String} {e : HeritageLineage}
    (h : e ∈ createHeritageEntries st node_id parent_nodes) :
    e.descendant_node_id = node_id ∧
    ((e.depth_distance = 1 ∧ e.ancestor_node_id ∈ parent_nodes) ∨
      ∃ e0 ∈ st.edges, e0.descendant_node_id ∈ parent_nodes ∧
        e = ⟨e0.ancestor_node_id, node_id, e0.depth_distance + 1⟩) := by
  unfold createHeritageEntries at h
  rcases List.mem_append.mp h with h1 | h2
  · obtain ⟨p, hp, rfl⟩ := List.mem_map.mp h1
    exact ⟨rfl, .inl ⟨rfl, hp⟩⟩
  · obtain ⟨p, hp, hmem⟩ := List.mem_flatMap.mp h2
    obtain ⟨e0, he0, rfl⟩ := List.mem_map.mp hmem
    obtain ⟨he0m, he0p⟩ := List.mem_filter.mp he0
    have hdp : e0.descendant_node_id = p := by simpa using he0p
    exact ⟨rfl, .inr ⟨e0, he0m, by rw [hdp]; exact hp, rfl⟩⟩

/-- A node whose id is registered stays registered, and is found
unchanged, after appending a node row to the store. -/
theorem lookupNode_append_of_registered {st : DBState} {p : String}
    (x : ContextualChainNode) (E : List HeritageLineage)
    (h : isRegistered st p = true) :
    lookupNode ⟨st.nodes ++ [x], E⟩ p = lookupNode st p := by
  unfold isRegistered at h
  unfold lookupNode at *
  rw [List.find?_append]
  cases hf : st.nodes.find? (fun n => n.node_id == p) with
  | some n => simp
  | none => rw [hf] at h; simp at h

/-- Looking up a freshly appended node row by its own id finds it, when
the id was absent before. -/
theorem lookupNode_append_self {st : DBState} (x : ContextualChainNode)
    (E : List HeritageLineage) (h : lookupNode st x.node_id = none) :
    lookupNode ⟨st.nodes ++ [x], E⟩ x.node_id = some x := by
  unfold lookupNode at *
  rw [List.find?_append, h]
  simp

/-- Registration of ids is monotone under appending a node row. -/
theorem isRegistered_append {st : DBState} {p : String}
    (x : ContextualChainNode) (E : List HeritageLineage)
    (h : isRegistered st p = true) :
    isRegistered ⟨st.nodes ++ [x], E⟩ p = true := by
  unfold isRegistered
  rw [lookupNode_append_of_registered x E h]
  exact h

/-- The id of a stored node is registered. -/
theorem isRegistered_of_mem {st : DBState} {n : ContextualChainNode}
    (h : n ∈ st.nodes) : isRegistered st n.node_id = true := by
  unfold isRegistered lookupNode
  cases hf : st.nodes.find? (fun m => m.node_id == n.node_id) with
  | some m => rfl
  | none => exact absurd (List.find?_eq_none.mp hf n h) (by simp)

/-- A registered id names some stored node. -/
theorem mem_of_isRegistered {st : DBState} {p : String}
    (h : isRegistered st p = true) :
    ∃ n ∈ st.nodes, n.node_id = p := by
  unfold isRegistered at h
  cases hf : lookupNode st p with
  | none => rw [hf] at h; simp at h
  | some n =>
    refine ⟨n, List.mem_of_find?_eq_some hf, ?_⟩
    have := List.find?_some hf
    simpa using this

/-- The initial accumulator bounds a `foldl Nat.max` from below. -/
theorem init_le_foldl_max (l : List Nat) (b : Nat) : b ≤ l.foldl Nat.max b := by
  induction l generalizing b with
  | nil => exact Nat.le_refl b
  | cons a l ih => exact Nat.le_trans (Nat.le_max_left b a) (ih (Nat.max b a))

/-- Every member of a list bounds its `foldl Nat.max` from below. -/
theorem mem_le_foldl_max {l : List Nat} {a : Nat} (h : a ∈ l) (b : Nat) :
    a ≤ l.foldl Nat.max b := by
  induction l generalizing b with
  | nil => cases h
  | cons x l ih =>
    rcases List.mem_cons.mp h with rfl | hm
    · exact Nat.le_trans (Nat.le_max_right b a) (init_le_foldl_max l (Nat.max b a))
    · exact ih hm (Nat.max b x)

/-- With a non-empty parent list whose members are all present in the Node
Store, `_calculate_depth` returns one plus the maximum stored parent
depth. -/
theorem calculateDepth_eq_of_parentsPresent {st : DBState} {parent_nodes : List String}
    (hne : parent_nodes ≠ [])
    (hpp : ∀ p ∈ parent_nodes, isRegistered st p = true) :
    calculateDepth st parent_nodes = 1 + parentMaxDepth st parent_nodes := by
  unfold calculateDepth parentMaxDepth
  rw [if_neg (by simpa using hne)]
  obtain ⟨p, hp⟩ := List.exists_mem_of_ne_nil parent_nodes hne
  obtain ⟨n, hn, hid⟩ := mem_of_isRegistered (hpp p hp)
  have hfil : n ∈ st.nodes.filter (fun n => parent_nodes.contains n.node_id) :=
    List.mem_filter.mpr ⟨hn, by rw [hid]; exact List.elem_iff.mpr hp⟩
  have hmap : n.lathering_depth ∈
      (st.nodes.filter (fun n => parent_nodes.contains n.node_id)).map
        (fun n => n.lathering_depth) :=
    List.mem_map.mpr ⟨n, hfil, rfl⟩
  have hnonempty :
      ((st.nodes.filter (fun n => parent_nodes.contains n.node_id)).map
        (fun n => n.lathering_depth)).isEmpty = false := by
    cases hE : ((st.nodes.filter (fun n => parent_nodes.contains n.node_id)).map
        (fun n => n.lathering_depth)).isEmpty
    · rfl
    · rw [List.isEmpty_iff] at hE
      rw [hE] at hmap
      cases hmap
  rw [if_neg (by rw [hnonempty]; simp)]
  omega

/-- The stored depth of any present declared parent is bounded by the
maximum stored parent depth. -/
theorem lookup_depth_le_parentMaxDepth {st : DBState} {parent_nodes : List String}
    {p : String} {pn : ContextualChainNode}
    (hp : p ∈ parent_nodes) (hl : lookupNode st p = some pn) :
    pn.lathering_depth ≤ parentMaxDepth st parent_nodes := by
  unfold lookupNode at hl
  have hmem : pn ∈ st.nodes := List.mem_of_find?_eq_some hl
  have hid : pn.node_id = p := by simpa using List.find?_some hl
  have hfil : pn ∈ st.nodes.filter (fun n => parent_nodes.contains n.node_id) :=
    List.mem_filter.mpr ⟨hmem, by simpa [hid] using List.elem_iff.mpr hp⟩
  exact mem_le_foldl_max (List.mem_map.mpr ⟨pn, hfil, rfl⟩) 0

/-- A register call with a fresh id, a passing cycle check, an in-range
depth and a commit that respects the unique lineage index succeeds and
appends exactly the node row and the pending lineage rows. -/
theorem registerNode_eq_ok {cfg : EngineSettings} {st : DBState}
    {node : ContextualChainNodeData}
    (hdup : lookupNode st node.node_id = none)
    (hcyc : (cfg.ENABLE_CIRCULAR_DEPENDENCY_CHECK &&
        wouldCreateCycle st node.node_id node.parent_nodes) = false)
    (hdep : calculateDepth st node.parent_nodes ≤ cfg.MAX_CHAIN_DEPTH)
    (hcommit : commitViolation st.edges
        (createHeritageEntries st node.node_id node.parent_nodes) = false) :
    registerNode cfg st node = .ok ⟨st.nodes ++ [⟨node.node_id, node.node_type,
        node.parent_nodes, node.metadata, calculateDepth st node.parent_nodes⟩],
      st.edges ++ createHeritageEntries st node.node_id node.parent_nodes⟩ := by
  unfold registerNode
  split
  · rename_i n hn
    rw [hdup] at hn
    cases hn
  · rw [if_neg (by rw [hcyc]; exact Bool.false_ne_true)]
    rw [if_neg (by omega)]
    rw [if_neg (by rw [hcommit]; exact Bool.false_ne_true)]

/-- Claim C1: a successful register call leaves the Lineage Index with a
direct row `(p, node_id, 1)` for each declared parent `p`, a row
`(a, node_id, d + 1)` for every row `(a, p, d)` committed before the call
with `p` a declared parent, and the call appends only rows of these two
shapes — existing rows are neither modified nor deleted. -/
theorem register_closure_rows (cfg : EngineSettings) (st : DBState)
    (node : ContextualChainNodeData) (st' : DBState)
    (h : registerNode cfg st node = .ok st') :
    (∀ p ∈ node.parent_nodes, (⟨p, node.node_id, 1⟩ : HeritageLineage) ∈ st'.edges) ∧
    (∀ e ∈ st.edges, e.descendant_node_id ∈ node.parent_nodes →
      (⟨e.ancestor_node_id, node.node_id, e.depth_distance + 1⟩ : HeritageLineage) ∈
        st'.edges) ∧
    (∃ created, st'.edges = st.edges ++ created ∧
      ∀ e ∈ created, e.descendant_node_id = node.node_id ∧
        ((e.depth_distance = 1 ∧ e.ancestor_node_id ∈ node.parent_nodes) ∨
          ∃ e0 ∈ st.edges, e0.descendant_node_id ∈ node.parent_nodes ∧
            e = ⟨e0.ancestor_node_id, node.node_id, e0.depth_distance + 1⟩)) := by
  obtain ⟨-, -, -, -, hst⟩ := registerNode_ok_inv h
  subst hst
  refine ⟨?_, ?_, createHeritageEntries st node.node_id node.parent_nodes, rfl, ?_⟩
  · intro p hp
    exact List.mem_append_right _ (mem_createHeritageEntries_direct hp)
  · intro e he hd
    exact List.mem_append_right _ (mem_createHeritageEntries_inherited hd he rfl)
  · intro e he
    exact createHeritageEntries_mem_inv he

/-- Witness for C1: registering `w` with parent `b` on the two-node chain
`a ← b` yields the direct row `(b, w, 1)` and the inherited row
`(a, w, 2)`. -/
theorem register_closure_rows_witness :
    (⟨"b", "w", 1⟩ : HeritageLineage) ∈ stChain3.edges ∧
    (⟨"a", "w", 2⟩ : HeritageLineage) ∈ stChain3.edges := by
  have h : registerNode cfgDefault stChain2 nodeW = .ok stChain3 := rfl
  obtain ⟨h1, h2, -⟩ := register_closure_rows cfgDefault stChain2 nodeW stChain3 h
  exact ⟨h1 "b" (by decide), h2 ⟨"a", "b", 1⟩ (by decide) (by decide)⟩

/-- Counterexample to claim C3: on the empty database, registering `x`
with the missing declared parent `ghost` does not fail — it persists the
node with depth 1 together with a dangling lineage row, refuting that a
node declaring a missing parent is never successfully registered. -/
theorem missing_parent_registration_succeeds :
    registerNode cfgDefault dbEmpty ⟨"x", "bid", ["ghost"], []⟩ =
      .ok ⟨[⟨"x", "bid", ["ghost"], [], 1⟩], [⟨"ghost", "x", 1⟩]⟩ := rfl

/-- Claim C3 as amended: `register_node` performs no parent-existence
validation and the source defines no ParentNotFoundError; when every
declared parent is absent from the Node Store the depth query comes back
empty and `_calculate_depth` falls back to 1, so — absent an independent
failure — the call succeeds, persisting the node with depth 1 and one
dangling lineage row per missing parent. -/
theorem register_ignores_missing_parents (cfg : EngineSettings) (st : DBState)
    (node : ContextualChainNodeData)
    (hdup : lookupNode st node.node_id = none)
    (hcyc : (cfg.ENABLE_CIRCULAR_DEPENDENCY_CHECK &&
        wouldCreateCycle st node.node_id node.parent_nodes) = false)
    (hne : node.parent_nodes ≠ [])
    (hmiss : ∀ p ∈ node.parent_nodes, lookupNode st p = none)
    (hmax : 1 ≤ cfg.MAX_CHAIN_DEPTH)
    (hcommit : commitViolation st.edges
        (createHeritageEntries st node.node_id node.parent_nodes) = false) :
    ∃ st', registerNode cfg st node = .ok st' ∧
      lookupNode st' node.node_id =
        some ⟨node.node_id, node.node_type, node.parent_nodes, node.metadata, 1⟩ ∧
      ∀ p ∈ node.parent_nodes, (⟨p, node.node_id, 1⟩ : HeritageLineage) ∈ st'.edges := by
  have hdepth : calculateDepth st node.parent_nodes = 1 := by
    unfold calculateDepth
    rw [if_neg (by simpa using hne)]
    have hfil : st.nodes.filter (fun n => node.parent_nodes.contains n.node_id) = [] := by
      rw [List.filter_eq_nil_iff]
      intro n hn hcon
      have hmem : n.node_id ∈ node.parent_nodes := List.elem_iff.mp hcon
      have hreg := isRegistered_of_mem hn
      unfold isRegistered at hreg
      rw [hmiss n.node_id hmem] at hreg
      cases hreg
    rw [hfil]
    rfl
  have hok := registerNode_eq_ok hdup hcyc (by omega) hcommit
  rw [hdepth] at hok
  refine ⟨_, hok, ?_, ?_⟩
  · exact lookupNode_append_self _ _ hdup
  · intro p hp
    exact List.mem_append_right _ (mem_createHeritageEntries_direct hp)

/-- Witness for the amended C3: registering `x` with the missing parent
`ghost` on the empty database succeeds, stores `x` with depth 1, and
records the dangling row `(ghost, x, 1)`. -/
theorem register_ignores_missing_parents_witness :
    ∃ st', registerNode cfgDefault dbEmpty ⟨"x", "bid", ["ghost"], []⟩ = .ok st' ∧
      lookupNode st' "x" = some ⟨"x", "bid", ["ghost"], [], 1⟩ ∧
      ∀ p ∈ [("ghost" : String)], (⟨p, "x", 1⟩ : HeritageLineage) ∈ st'.edges :=
  register_ignores_missing_parents cfgDefault dbEmpty ⟨"x", "bid", ["ghost"], []⟩
    (by decide) (by decide) (by decide) (by decide) (by decide) (by decide)

/-- Claim C4: the fail-fast validation order of `register_node` — with the
cycle check enabled, a fresh id that lists itself as a parent fails with
CircularDependencyError whatever else the state holds; an id already
present in the Node Store always fails with DuplicateNodeError and leaves
the committed state (hence the node stored by the first call) unchanged;
in particular when both violations hold at once the duplicate check runs
first and DuplicateNodeError is raised. -/
theorem register_validation_order (cfg : EngineSettings) (st : DBState)
    (node : ContextualChainNodeData) :
    (cfg.ENABLE_CIRCULAR_DEPENDENCY_CHECK = true →
      lookupNode st node.node_id = none → node.node_id ∈ node.parent_nodes →
      registerNode cfg st node = .error .circularDependency) ∧
    (∀ n, lookupNode st node.node_id = some n →
      registerNode cfg st node = .error .duplicateNode ∧
        stepRegister cfg st node = st) := by
  constructor
  · intro htoggle hfresh hself
    unfold registerNode
    split
    · rename_i n hn
      rw [hfresh] at hn
      cases hn
    · rw [if_pos]
      rw [htoggle, Bool.true_and]
      unfold wouldCreateCycle
      have hc : node.parent_nodes.contains node.node_id = true := List.elem_iff.mpr hself
      rw [hc]
      rfl
  · intro n hn
    have hreg : registerNode cfg st node = .error .duplicateNode := by
      unfold registerNode
      split
      · rfl
      · rename_i hl
        rw [hn] at hl
        cases hl
    exact ⟨hreg, by unfold stepRegister; rw [hreg]⟩

/-- Witness for C4: a fresh self-referencing id fails the cycle check, and
re-registering the already stored id `a` — even with a self-reference —
fails with DuplicateNodeError. -/
theorem register_validation_order_witness :
    registerNode cfgDefault dbEmpty ⟨"x", "bid", ["x"], []⟩ =
        .error .circularDependency ∧
    registerNode cfgDefault stChain2 ⟨"a", "cost_code", ["a"], []⟩ =
        .error .duplicateNode := by
  constructor
  · exact (register_validation_order cfgDefault dbEmpty ⟨"x", "bid", ["x"], []⟩).1
      rfl (by decide) (by decide)
  · exact ((register_validation_order cfgDefault stChain2 ⟨"a", "cost_code", ["a"], []⟩).2
      ⟨"a", "cost_code", [], [], 0⟩ (by decide)).1

/-- Counterexample to claim C5: on the diamond base `r ← c1, r ← c2`,
registering `m` with parents `c1` and `c2` attempts two lineage rows for
the pair `(r, m)`, the commit violates the unique
`(ancestor, descendant)` index, and the call fails with an IntegrityError
instead of succeeding with a first-writer-wins row. -/
theorem shared_ancestor_registration_fails :
    registerNode cfgDefault (execChain cfgDefault seqDiamondBase) nodeM =
      .error .integrityViolation := rfl

/-- Counterexample to claim C2: after the sequence `seqLateParent` — where
`x` declared the then-missing parent `g` and `g` was registered later with
depth 2 — node `x` has stored depth 1 while one plus the maximum stored
depth of its declared parents is 3, refuting the depth relation. -/
theorem depth_relation_fails_after_late_parent :
    depthRelationHolds (execChain cfgDefault seqLateParent) = false := by decide

/-- Counterexample to claim C6: after the sequence `seqDanglingChild` —
where `c` declared the then-missing parent `b` and `b` was registered
later with parent `a` — the rows `(a, b, 1)` and `(b, c, 1)` coexist with
no `(a, c, d)` row, refuting transitivity of the materialized closure. -/
theorem transitivity_fails_after_dangling_parent :
    transitivityHolds (execChain cfgDefault seqDanglingChild) = false := by decide

/-- Counterexample to claim C7: after the sequence `seqEqualDepth` — where
`x` declared the then-missing parent `g` and `g` was registered later at
depth 1 — node `x` (depth 1) is not strictly deeper than its stored parent
`g` (depth 1), refuting depth dominance. -/
theorem depth_dominance_fails_after_dangling_parent :
    depthDominanceHolds (execChain cfgDefault seqEqualDepth) = false := by decide

/-- Claim C8: every failing register call leaves the committed Node Store
and Lineage Index exactly as before the call: all ValueError raises
precede `commit()`, and a commit-time unique-index violation aborts the
transaction, so no node row and no lineage row of the failed call is
persisted. -/
theorem register_failure_preserves_state (cfg : EngineSettings) (st : DBState)
    (node : ContextualChainNodeData) (err : RegistrationError)
    (h : registerNode cfg st node = .error err) :
    stepRegister cfg st node = st := by
  unfold stepRegister
  rw [h]

/-- Witness for C8: the failing duplicate registration of `a` on the
two-node chain leaves the committed state unchanged. -/
theorem register_failure_preserves_state_witness :
    stepRegister cfgDefault stChain2 ⟨"a", "cost_code", [], []⟩ = stChain2 :=
  register_failure_preserves_state cfgDefault stChain2 ⟨"a", "cost_code", [], []⟩
    .duplicateNode rfl

/-- Claim C9: the configuration options `register_node` consumes
(`ENABLE_CIRCULAR_DEPENDENCY_CHECK` at line 62 and `MAX_CHAIN_DEPTH` at
line 72 of src/app/services/contextual_service.py) are not among the
fields declared by the `Settings` class of src/app/config.py, so the
program does not recognize them; accessing them on the pydantic settings
object raises AttributeError before the cycle or depth-limit logic can
run. -/
theorem register_settings_not_declared :
    registerNodeSettingsReads.all (fun s => !(settingsDeclaredFields.contains s)) = true := by
  decide

/-- A duplicate-pair collision in the right half of an append is a
collision in the whole list. -/
theorem hasDupPair_append_right {l2 : List HeritageLineage} (l1 : List HeritageLineage)
    (h : hasDupPair l2 = true) : hasDupPair (l1 ++ l2) = true := by
  induction l1 with
  | nil => exact h
  | cons x xs ih =>
    simp only [List.cons_append, hasDupPair, List.append_eq, ih, Bool.or_true]

/-- Two rows that collide on the unique pair, one in each half of an
append, force a duplicate-pair collision. -/
theorem hasDupPair_of_mem_mem {l1 l2 : List HeritageLineage} {e1 e2 : HeritageLineage}
    (h1 : e1 ∈ l1) (h2 : e2 ∈ l2) (hs : sameEdgePair e1 e2 = true) :
    hasDupPair (l1 ++ l2) = true := by
  induction l1 with
  | nil => cases h1
  | cons x xs ih =>
    rcases List.mem_cons.mp h1 with rfl | hm
    · have hany : (xs ++ l2).any (sameEdgePair e1) = true :=
        List.any_eq_true.mpr ⟨e2, List.mem_append_right xs h2, hs⟩
      simp only [List.cons_append, hasDupPair, List.append_eq, hany, Bool.true_or]
    · simp only [List.cons_append, hasDupPair, List.append_eq, ih hm, Bool.or_true]

/-- Claim C5 as amended: when a register call's declared parents include
two distinct parents sharing a committed ancestor `a`, the pending lineage
rows contain two rows for the pair `(a, node_id)`, the commit violates the
unique `(ancestor, descendant)` index, and the call fails with nothing
persisted — no first-writer-wins row for `(a, node_id)` is ever stored. -/
theorem shared_ancestor_blocks_registration (cfg : EngineSettings) (st : DBState)
    (node : ContextualChainNodeData) (a p1 p2 : String) (d1 d2 : Nat)
    (hp1 : p1 ∈ node.parent_nodes) (hp2 : p2 ∈ node.parent_nodes) (hne : p1 ≠ p2)
    (he1 : (⟨a, p1, d1⟩ : HeritageLineage) ∈ st.edges)
    (he2 : (⟨a, p2, d2⟩ : HeritageLineage) ∈ st.edges) :
    (registerNode cfg st node).isOk = false ∧ stepRegister cfg st node = st := by
  have hdup : hasDupPair (createHeritageEntries st node.node_id node.parent_nodes) = true := by
    unfold createHeritageEntries
    apply hasDupPair_append_right
    obtain ⟨u, v, huv⟩ := List.append_of_mem hp1
    rw [huv, List.flatMap_append, List.flatMap_cons]
    have hx1 : (⟨a, node.node_id, d1 + 1⟩ : HeritageLineage) ∈
        (st.edges.filter (fun e => e.descendant_node_id == p1)).map
          (fun e => ⟨e.ancestor_node_id, node.node_id, e.depth_distance + 1⟩) :=
      List.mem_map.mpr ⟨⟨a, p1, d1⟩, List.mem_filter.mpr ⟨he1, by simp⟩, rfl⟩
    have hp2' : p2 ∈ u ++ p1 :: v := huv ▸ hp2
    rcases List.mem_append.mp hp2' with hu | hv'
    · have hx2 : (⟨a, node.node_id, d2 + 1⟩ : HeritageLineage) ∈
          u.flatMap (fun parent_id =>
            (st.edges.filter (fun e => e.descendant_node_id == parent_id)).map
              (fun e => ⟨e.ancestor_node_id, node.node_id, e.depth_distance + 1⟩)) :=
        List.mem_flatMap.mpr ⟨p2, hu, List.mem_map.mpr ⟨⟨a, p2, d2⟩,
          List.mem_filter.mpr ⟨he2, by simp⟩, rfl⟩⟩
      exact hasDupPair_of_mem_mem hx2 (List.mem_append_left _ hx1) (by simp [sameEdgePair])
    · rcases List.mem_cons.mp hv' with heq | hv
      · exact absurd heq.symm hne
      · have hx2 : (⟨a, node.node_id, d2 + 1⟩ : HeritageLineage) ∈
            v.flatMap (fun parent_id =>
              (st.edges.filter (fun e => e.descendant_node_id == parent_id)).map
                (fun e => ⟨e.ancestor_node_id, node.node_id, e.depth_distance + 1⟩)) :=
          List.mem_flatMap.mpr ⟨p2, hv, List.mem_map.mpr ⟨⟨a, p2, d2⟩,
            List.mem_filter.mpr ⟨he2, by simp⟩, rfl⟩⟩
        exact hasDupPair_append_right _
          (hasDupPair_of_mem_mem hx1 hx2 (by simp [sameEdgePair]))
  have hviol : commitViolation st.edges
      (createHeritageEntries st node.node_id node.parent_nodes) = true := by
    unfold commitViolation
    rw [hdup]
    rfl
  cases hr : registerNode cfg st node with
  | error e =>
    exact ⟨rfl, by unfold stepRegister; rw [hr]⟩
  | ok st' =>
    obtain ⟨-, -, -, hcommit, -⟩ := registerNode_ok_inv hr
    rw [hviol] at hcommit
    cases hcommit

/-- Witness for the amended C5: registering `m` with parents `c1` and `c2`
(which share the ancestor `r`) on the diamond base fails and leaves the
state unchanged. -/
theorem shared_ancestor_blocks_registration_witness :
    (registerNode cfgDefault (execChain cfgDefault seqDiamondBase) nodeM).isOk = false ∧
    stepRegister cfgDefault (execChain cfgDefault seqDiamondBase) nodeM =
      execChain cfgDefault seqDiamondBase :=
  shared_ancestor_blocks_registration cfgDefault (execChain cfgDefault seqDiamondBase)
    nodeM "r" "c1" "c2" 1 1 (by decide) (by decide) (by decide) (by decide) (by decide)

/-- Appending a node row keeps its own id registered. -/
theorem isRegistered_append_self (st : DBState) (x : ContextualChainNode)
    (E : List HeritageLineage) :
    isRegistered ⟨st.nodes ++ [x], E⟩ x.node_id = true := by
  unfold isRegistered lookupNode
  rw [List.find?_append]
  cases hf : st.nodes.find? (fun n => n.node_id == x.node_id) <;> simp

/-- Appending a node row whose id is outside the parent list does not
change the maximum stored parent depth. -/
theorem parentMaxDepth_append (st : DBState) (x : ContextualChainNode)
    (E : List HeritageLineage) {parent_nodes : List String}
    (h : parent_nodes.contains x.node_id = false) :
    parentMaxDepth ⟨st.nodes ++ [x], E⟩ parent_nodes = parentMaxDepth st parent_nodes := by
  unfold parentMaxDepth
  rw [List.filter_append]
  have hdec : (decide (x.node_id ∈ parent_nodes)) = false := by
    cases hdm : decide (x.node_id ∈ parent_nodes)
    · rfl
    · have hm := of_decide_eq_true hdm
      exact absurd hm (by simpa using h)
  have hfil : [x].filter (fun n => parent_nodes.contains n.node_id) = [] := by
    simp [List.filter, hdec]
  rw [hfil, List.append_nil]

/-- The empty database satisfies every maintained invariant. -/
theorem goodState_empty : GoodState dbEmpty := by
  constructor
  · intro e he; cases he
  · intro e he; cases he
  · intro n hn; cases hn
  · intro e1 h1; cases h1
  · intro n hn; cases hn
  · intro n hn; cases hn

/-- A register call whose declared parents are all present at call time
preserves the maintained invariants. -/
theorem goodState_step (cfg : EngineSettings) (st : DBState)
    (node : ContextualChainNodeData) (hg : GoodState st)
    (hpp : parentsPresent st node = true) :
    GoodState (stepRegister cfg st node) := by
  cases hr : registerNode cfg st node with
  | error e =>
    have hstep : stepRegister cfg st node = st := by unfold stepRegister; rw [hr]
    rw [hstep]
    exact hg
  | ok st' =>
    have hstep : stepRegister cfg st node = st' := by unfold stepRegister; rw [hr]
    rw [hstep]
    obtain ⟨hfresh, -, -, -, hst⟩ := registerNode_ok_inv hr
    subst hst
    have hparents : ∀ p ∈ node.parent_nodes, isRegistered st p = true := by
      unfold parentsPresent at hpp
      rw [List.all_eq_true] at hpp
      exact hpp
    have hfreshreg : isRegistered st node.node_id = false := by
      unfold isRegistered
      rw [hfresh]
      rfl
    have hnidnotparent : node.node_id ∉ node.parent_nodes := by
      intro hmem
      have := hparents _ hmem
      rw [hfreshreg] at this
      cases this
    have hnoedge_anc : ∀ e ∈ st.edges, e.ancestor_node_id ≠ node.node_id := by
      intro e he heq
      have := hg.anc_reg e he
      rw [heq, hfreshreg] at this
      cases this
    have hnotin : ∀ ps : List String, (∀ p ∈ ps, isRegistered st p = true) →
        ps.contains node.node_id = false := by
      intro ps hall
      cases hcon : ps.contains node.node_id
      · rfl
      · have := hall node.node_id (List.elem_iff.mp hcon)
        rw [hfreshreg] at this
        cases this
    constructor
    · -- anc_reg
      intro e he
      rcases List.mem_append.mp he with ho | hn
      · exact isRegistered_append _ _ (hg.anc_reg e ho)
      · obtain ⟨hd, hcase⟩ := createHeritageEntries_mem_inv hn
        rcases hcase with ⟨-, hancp⟩ | ⟨e0, he0, -, he0eq⟩
        · exact isRegistered_append _ _ (hparents _ hancp)
        · rw [he0eq]
          exact isRegistered_append _ _ (hg.anc_reg e0 he0)
    · -- desc_reg
      intro e he
      rcases List.mem_append.mp he with ho | hn
      · exact isRegistered_append _ _ (hg.desc_reg e ho)
      · obtain ⟨hd, -⟩ := createHeritageEntries_mem_inv hn
        rw [hd]
        exact isRegistered_append_self st _ _
    · -- parents_reg
      intro n hn p hp
      rcases List.mem_append.mp hn with ho | hm
      · exact isRegistered_append _ _ (hg.parents_reg n ho p hp)
      · rcases List.mem_singleton.mp hm with rfl
        exact isRegistered_append _ _ (hparents p hp)
    · -- closure_trans
      intro e1 h1 e2 h2 hd
      rcases List.mem_append.mp h1 with h1o | h1n
      · rcases List.mem_append.mp h2 with h2o | h2n
        · obtain ⟨e3, h3, ha3, hb3⟩ := hg.closure_trans e1 h1o e2 h2o hd
          exact ⟨e3, List.mem_append_left _ h3, ha3, hb3⟩
        · obtain ⟨hdesc2, hcase⟩ := createHeritageEntries_mem_inv h2n
          rcases hcase with ⟨-, hanc2⟩ | ⟨e0, he0, he0p, he0eq⟩
          · refine ⟨⟨e1.ancestor_node_id, node.node_id, e1.depth_distance + 1⟩,
              List.mem_append_right _
                (mem_createHeritageEntries_inherited (hd ▸ hanc2) h1o rfl), rfl, ?_⟩
            rw [hdesc2]
          · have hanc : e1.descendant_node_id = e0.ancestor_node_id := by
              rw [hd, he0eq]
            obtain ⟨e3, h3, ha3, hb3⟩ := hg.closure_trans e1 h1o e0 he0 hanc
            refine ⟨⟨e3.ancestor_node_id, node.node_id, e3.depth_distance + 1⟩,
              List.mem_append_right _
                (mem_createHeritageEntries_inherited (p := e3.descendant_node_id)
                  (by rw [hb3]; exact he0p) h3 rfl), ha3, ?_⟩
            rw [hdesc2]
      · obtain ⟨hdesc1, -⟩ := createHeritageEntries_mem_inv h1n
        rcases List.mem_append.mp h2 with h2o | h2n
        · have hcon : e2.ancestor_node_id = node.node_id := by
            rw [← hd]
            exact hdesc1
          exact absurd hcon (hnoedge_anc e2 h2o)
        · obtain ⟨-, hcase2⟩ := createHeritageEntries_mem_inv h2n
          rcases hcase2 with ⟨-, hanc2⟩ | ⟨e0, he0, -, he0eq⟩
          · rw [hdesc1] at hd
            rw [← hd] at hanc2
            exact absurd hanc2 hnidnotparent
          · have : e2.ancestor_node_id = e0.ancestor_node_id := by rw [he0eq]
            rw [hdesc1] at hd
            rw [this] at hd
            exact absurd hd.symm (hnoedge_anc e0 he0)
    · -- depth_dom
      intro n hn p hp pn hpn
      rcases List.mem_append.mp hn with ho | hm
      · have hreg : isRegistered st p = true := hg.parents_reg n ho p hp
        rw [lookupNode_append_of_registered _ _ hreg] at hpn
        exact hg.depth_dom n ho p hp pn hpn
      · rcases List.mem_singleton.mp hm with rfl
        have hreg : isRegistered st p = true := hparents p hp
        rw [lookupNode_append_of_registered _ _ hreg] at hpn
        have hle : pn.lathering_depth ≤ parentMaxDepth st node.parent_nodes :=
          lookup_depth_le_parentMaxDepth hp hpn
        have hcd : calculateDepth st node.parent_nodes =
            1 + parentMaxDepth st node.parent_nodes :=
          calculateDepth_eq_of_parentsPresent (List.ne_nil_of_mem hp) hparents
        show pn.lathering_depth < calculateDepth st node.parent_nodes
        omega
    · -- depth_spec
      intro n hn
      rcases List.mem_append.mp hn with ho | hm
      · obtain ⟨h0, h1⟩ := hg.depth_spec n ho
        refine ⟨h0, fun hne => ?_⟩
        rw [parentMaxDepth_append st _ _
          (hnotin n.parent_nodes (hg.parents_reg n ho))]
        exact h1 hne
      · rcases List.mem_singleton.mp hm with rfl
        constructor
        · intro hnil
          have hnil' : node.parent_nodes = [] := hnil
          show calculateDepth st node.parent_nodes = 0
          rw [hnil']
          rfl
        · intro hne
          have hne' : node.parent_nodes ≠ [] := hne
          show calculateDepth st node.parent_nodes =
            1 + parentMaxDepth _ node.parent_nodes
          rw [parentMaxDepth_append st _ _ (hnotin node.parent_nodes hparents)]
          exact calculateDepth_eq_of_parentsPresent hne' hparents

/-- Every state reachable by register calls whose declared parents are
present at call time satisfies the maintained invariants. -/
theorem reachable_goodState {cfg : EngineSettings} {st : DBState}
    (h : ReachableAllParents cfg st) : GoodState st := by
  induction h with
  | empty => exact goodState_empty
  | step st node hr hp ih => exact goodState_step cfg st node ih hp

/-- Claim C2 as amended: the depth relation — depth 0 for a parentless
node, otherwise one plus the maximum stored depth of its declared parents
— holds in every state reachable by register calls whose declared parents
are all present in the Node Store at call time; the counterexample shows
it can fail once a node is registered while a declared parent is still
missing and that parent is added later. -/
theorem depth_relation_of_parents_present (cfg : EngineSettings) (st : DBState)
    (h : ReachableAllParents cfg st) : depthRelationHolds st = true := by
  have hg := reachable_goodState h
  unfold depthRelationHolds
  rw [List.all_eq_true]
  intro n hn
  obtain ⟨h0, h1⟩ := hg.depth_spec n hn
  cases hne : n.parent_nodes.isEmpty
  · rw [if_neg Bool.false_ne_true]
    have hne' : n.parent_nodes ≠ [] := by
      intro heq
      rw [heq] at hne
      cases hne
    rw [h1 hne']
    simp
  · rw [if_pos rfl]
    rw [h0 (List.isEmpty_iff.mp hne)]
    rfl

/-- The two-node chain state is reachable with all parents present. -/
theorem reachable_chain2 : ReachableAllParents cfgDefault
    (stepRegister cfgDefault (stepRegister cfgDefault dbEmpty nodeA) nodeB) :=
  .step _ nodeB (.step _ nodeA .empty (by decide)) (by decide)

/-- The three-node chain state is reachable with all parents present. -/
theorem reachable_chain3 : ReachableAllParents cfgDefault
    (stepRegister cfgDefault (stepRegister cfgDefault
      (stepRegister cfgDefault dbEmpty nodeA) nodeB) nodeW) :=
  .step _ nodeW reachable_chain2 (by decide)

/-- Witness for the amended C2: the three-node chain built with all
parents present satisfies the depth relation. -/
theorem depth_relation_of_parents_present_witness :
    depthRelationHolds (stepRegister cfgDefault (stepRegister cfgDefault
      (stepRegister cfgDefault dbEmpty nodeA) nodeB) nodeW) = true :=
  depth_relation_of_parents_present cfgDefault _ reachable_chain3

/-- Claim C6 as amended: in every state reachable by register calls whose
declared parents are all present at call time, coexisting rows
`(a, b, d1)` and `(b, c, d2)` of the Lineage Index are joined by some row
`(a, c, d)`; the counterexample shows transitivity can fail when a node is
registered while a declared parent is still missing and the parent is
added later. -/
theorem transitivity_of_parents_present (cfg : EngineSettings) (st : DBState)
    (h : ReachableAllParents cfg st) (a b c : String) (d1 d2 : Nat)
    (h1 : (⟨a, b, d1⟩ : HeritageLineage) ∈ st.edges)
    (h2 : (⟨b, c, d2⟩ : HeritageLineage) ∈ st.edges) :
    ∃ d, (⟨a, c, d⟩ : HeritageLineage) ∈ st.edges := by
  obtain ⟨e3, h3, ha3, hb3⟩ :=
    (reachable_goodState h).closure_trans ⟨a, b, d1⟩ h1 ⟨b, c, d2⟩ h2 rfl
  refine ⟨e3.depth_distance, ?_⟩
  cases e3 with
  | mk x y z =>
    cases ha3
    cases hb3
    exact h3

/-- Witness for the amended C6: in the three-node chain, the rows
`(a, b, 1)` and `(b, w, 1)` are joined by a row `(a, w, d)`. -/
theorem transitivity_of_parents_present_witness :
    ∃ d, (⟨"a", "w", d⟩ : HeritageLineage) ∈
      (stepRegister cfgDefault (stepRegister cfgDefault
        (stepRegister cfgDefault dbEmpty nodeA) nodeB) nodeW).edges :=
  transitivity_of_parents_present cfgDefault _ reachable_chain3
    "a" "b" "w" 1 1 (by decide) (by decide)

/-- Claim C7 as amended: in every state reachable by register calls whose
declared parents are all present at call time, each stored node's depth is
strictly greater than the stored depth of every declared parent present in
the store; the counterexample shows dominance can fail once a node is
registered while a declared parent is still missing and that parent is
added later. -/
theorem depth_dominance_of_parents_present (cfg : EngineSettings) (st : DBState)
    (h : ReachableAllParents cfg st) :
    ∀ n ∈ st.nodes, ∀ p ∈ n.parent_nodes, ∀ pn, lookupNode st p = some pn →
      pn.lathering_depth < n.lathering_depth :=
  (reachable_goodState h).depth_dom

/-- Witness for the amended C7: in the two-node chain, the stored root
`a` (depth 0) is strictly shallower than its child `b` (depth 1). -/
theorem depth_dominance_of_parents_present_witness :
    (⟨"a", "cost_code", [], [], 0⟩ : ContextualChainNode).lathering_depth <
      (⟨"b", "bid", ["a"], [], 1⟩ : ContextualChainNode).lathering_depth :=
  depth_dominance_of_parents_present cfgDefault _ reachable_chain2
    ⟨"b", "bid", ["a"], [], 1⟩ (by decide) "a" (by decide)
    ⟨"a", "cost_code", [], [], 0⟩ (by decide)

/-- Claim C10: `get_heritage_lineage` fails with NodeNotFoundError exactly
when the node id is absent from the Node Store; for a stored node it
returns precisely the ancestor ids of that node's Lineage Index rows
(a permutation of the rows with matching descendant), ordered by ascending
`depth_distance`.  The embedding makes the read a pure function of the
committed state, so two calls with no intervening writes agree by
construction, reflecting that the source method performs no writes. -/
theorem get_heritage_lineage_spec (st : DBState) (node_id : String) :
    (lookupNode st node_id = none →
      getHeritageLineage st node_id = .error .nodeNotFound) ∧
    (∀ n, lookupNode st node_id = some n →
      ∃ es : List HeritageLineage,
        getHeritageLineage st node_id = .ok (es.map (fun e => e.ancestor_node_id)) ∧
        es.Perm (st.edges.filter (fun e => e.descendant_node_id == node_id)) ∧
        es.Pairwise (fun e1 e2 => e1.depth_distance ≤ e2.depth_distance)) := by
  constructor
  · intro h
    unfold getHeritageLineage
    rw [h]
  · intro n h
    refine ⟨(st.edges.filter (fun e => e.descendant_node_id == node_id)).mergeSort
      byDistance, ?_, List.mergeSort_perm _ _, ?_⟩
    · unfold getHeritageLineage
      rw [h]
    · have htrans : ∀ a b c : HeritageLineage,
          byDistance a b → byDistance b c → byDistance a c := by
        intro a b c hab hbc
        simp only [byDistance, decide_eq_true_eq] at *
        omega
      have htotal : ∀ a b : HeritageLineage, byDistance a b || byDistance b a := by
        intro a b
        simp only [byDistance]
        rcases Nat.le_total a.depth_distance b.depth_distance with hle | hle
        · simp [hle]
        · simp [hle]
      have hsorted := List.sorted_mergeSort htrans htotal
        (st.edges.filter (fun e => e.descendant_node_id == node_id))
      exact hsorted.imp (fun hb => by simpa [byDistance] using hb)

/-- Witness for C10: on the three-node chain, the lookup of a missing id
fails with NodeNotFoundError, and the lineage of `w` is the ancestor-id
projection of its sorted closure rows. -/
theorem get_heritage_lineage_spec_witness :
    getHeritageLineage stChain3 "zzz" = .error .nodeNotFound ∧
    ∃ es : List HeritageLineage,
      getHeritageLineage stChain3 "w" = .ok (es.map (fun e => e.ancestor_node_id)) ∧
      es.Perm (stChain3.edges.filter (fun e => e.descendant_node_id == "w")) ∧
      es.Pairwise (fun e1 e2 => e1.depth_distance ≤ e2.depth_distance) :=
  ⟨(get_heritage_lineage_spec stChain3 "zzz").1 (by decide),
   (get_heritage_lineage_spec stChain3 "w").2
     ⟨"w", "roi_analysis", ["b"], [], 2⟩ (by decide)⟩

end EvMaxCatalog
